import Mathlib

/-!
Shallow embedding of the imhemobras dashboard data pipeline.

The repository consists of three Streamlit pages:
  * `1_Aquisições_MS.py` — wide-to-long reshape of a medicines acquisition CSV
    (`load_coagulopatias_data`), with locale numeric cleanup;
  * `Hemo_8R.py` — a distribution-by-service loader (`load_data`, with month-name
    period parsing `parse_periodo`), a Ministry-of-Health loader (`load_ms_data`),
    and a top-N ranking of services;
  * `2_Emicizumabe.py` — a delimiter-autodetecting CSV loader (`load_csv_auto`).

Cells read with `dtype=str` are modelled as `Option String` (`none` is pandas NaN
for a missing cell).  Numbers are modelled as `ℚ` (pandas float64) or `Int`
(after `.astype(int)`).  `pd.to_numeric(s, errors="coerce")` on a text cell is
modelled at two levels: `parseNum` covers the finite fragment — optional sign,
digits, at most one decimal point — and `parseNumFull` extends it with the
textual infinities ("inf"/"infinity", case-insensitive, optionally signed),
returning a `PyNum` that is a finite rational or an infinity; `.astype(int)` is
`astypeInt64`, which raises on a non-finite value and otherwise truncates toward
zero and sends any value outside the signed 64-bit range to INT64_MIN, the
sentinel of the x86 float-to-int64 cast.  The textual "nan" spelling behaves
exactly like a parse failure in every pipeline here, so it is folded into
`none`; scientific notation and float64 rounding are outside the model (no
input in any claim uses them).
-/

attribute [local semireducible] Rat.add Rat.mul Rat.sub Rat.ofScientific

/-- Numeric value of a list of ASCII digit characters, most significant first. -/
def digitsVal (ds : List Char) : Nat :=
  ds.foldl (fun a c => 10 * a + (c.toNat - 48)) 0

/-- Parse an unsigned decimal numeral: digits with at most one decimal point,
at least one digit overall (accepts "5", "5.", ".5", "3.100"; rejects "", ".",
"1,5", "12.3.4").  This models the body of the float conversion used by
`pd.to_numeric`.  The value of `a.b` is (a*10^k + b)/10^k with k fractional
digits, built with `mkRat`. -/
def parseUnsigned (s : List Char) : Option ℚ :=
  match s.dropWhile Char.isDigit with
  | [] =>
      if (s.takeWhile Char.isDigit).isEmpty then none
      else some (digitsVal (s.takeWhile Char.isDigit))
  | c :: frac =>
      if c = '.' && frac.all Char.isDigit &&
          (!(s.takeWhile Char.isDigit).isEmpty || !frac.isEmpty) then
        some (mkRat (digitsVal (s.takeWhile Char.isDigit) * 10 ^ frac.length + digitsVal frac)
          (10 ^ frac.length))
      else none

/-- Model of `pd.to_numeric(s, errors="coerce")` on a single text cell:
optional leading sign, then an unsigned decimal numeral; `none` when the text
does not parse (pandas NaN). -/
def parseNum (s : String) : Option ℚ :=
  match s.toList with
  | '-' :: t => (parseUnsigned t).map (fun q => -q)
  | '+' :: t => parseUnsigned t
  | t => parseUnsigned t

/-- Model of `.fillna("0")` on a cell: a missing cell becomes the text "0". -/
def fillnaZero (c : Option String) : String := c.getD "0"

/-- Model of `.str.replace(".", "", regex=False)`: remove every '.' character. -/
def stripDots (s : String) : String := String.mk (s.toList.filter (fun c => c ≠ '.'))

/-- Model of `.str.replace(",", ".", regex=False)`: turn every ',' into '.'. -/
def commaToDot (s : String) : String :=
  String.mk (s.toList.map (fun c => if c = ',' then '.' else c))

/-- Quantity normalizer of `load_coagulopatias_data` (1_Aquisições_MS.py lines
41-48): fillna "0", strip all '.', replace ',' by '.', `to_numeric` with
coercion, remaining NaN filled with 0. -/
def normalizeQuantidade (c : Option String) : ℚ :=
  (parseNum (commaToDot (stripDots (fillnaZero c)))).getD 0

/-- Truncation of a rational toward zero, modelling numpy `.astype(int)` on a
float value (`Int.div` is T-division, i.e. rounds toward zero). -/
def ratTrunc (q : ℚ) : Int := Int.tdiv q.num (q.den : Int)

/-- Trim whitespace from both ends of a character list, modelling Python
`str.strip()` (the whitespace classes agree on the ASCII range relevant here). -/
def pyStrip (s : String) : String :=
  String.mk
    (((s.toList.dropWhile Char.isWhitespace).reverse.dropWhile Char.isWhitespace).reverse)

/-- UI-column normalizer of `load_data` (Hemo_8R.py lines 32-39): fillna "0",
strip all '.', `.str.strip()` (whitespace trim), `to_numeric` with coercion,
NaN filled with 0, cast to int.  Note there is no ','→'.' replacement here,
unlike the acquisitions loader.  This is the finite-and-in-range fragment of
the cast, sufficient for the pipeline rows appearing in the claims below;
`normalizeUIFull` models the cast's failure on textual infinities and its
int64-range behavior. -/
def normalizeUI (c : Option String) : Int :=
  ratTrunc ((parseNum (pyStrip (stripDots (fillnaZero c)))).getD 0)

/-- Model of Python `str.lower()` restricted to the alphabet that matters
here: ASCII upper case letters and 'Ç'.  Other characters are unchanged
(no such character can make the month regex match either way). -/
def charLower (c : Char) : Char :=
  if 'A' ≤ c && c ≤ 'Z' then Char.ofNat (c.toNat + 32)
  else if c = 'Ç' then 'ç' else c

/-- A float64 value as `pd.to_numeric` can produce it from text: a finite
value, or one of the two infinities (textual "inf"/"infinity" parses).  NaN
needs no constructor: a NaN result behaves exactly like a parse failure in
every use in this repository (`fillna(0)` and `dropna`), so it is folded
into `none` of the surrounding `Option`. -/
inductive PyNum where
  | fin : ℚ → PyNum
  | pinf : PyNum
  | ninf : PyNum
deriving DecidableEq, Repr

/-- Negation of a parsed float value (for a leading '-'). -/
def PyNum.neg : PyNum → PyNum
  | PyNum.fin q => PyNum.fin (-q)
  | PyNum.pinf => PyNum.ninf
  | PyNum.ninf => PyNum.pinf

/-- The textual spellings of infinity accepted by pandas' numeric parser
(case-insensitive "inf" and "infinity"). -/
def isInfWord (l : List Char) : Bool :=
  l.map charLower == "inf".toList || l.map charLower == "infinity".toList

/-- Unsigned full parse: a textual infinity or a finite numeral. -/
def parseUnsignedFull (s : List Char) : Option PyNum :=
  if isInfWord s then some PyNum.pinf else (parseUnsigned s).map PyNum.fin

/-- Model of `pd.to_numeric(s, errors="coerce")` including the textual
infinities (`parseNum` is its finite fragment; scientific notation and the
float64 rounding/overflow of very long numerals remain outside the model —
they could only add further non-finite or rounded values, which the claims
below no longer exclude). -/
def parseNumFull (s : String) : Option PyNum :=
  match s.toList with
  | '-' :: t => (parseUnsignedFull t).map PyNum.neg
  | '+' :: t => parseUnsignedFull t
  | t => parseUnsignedFull t

/-- Full acquisitions normalizer: `normalizeQuantidade` including the
textual infinities (this column has no `.astype(int)`, so a non-finite
value survives into the table without raising). -/
def normalizeQuantidadeFull (c : Option String) : PyNum :=
  (parseNumFull (commaToDot (stripDots (fillnaZero c)))).getD (PyNum.fin 0)

/-- The numpy float→int64 conversion of a truncated value: exact inside the
int64 range; outside it the x86 conversion instruction produces the
INT64_MIN sentinel (numpy does not raise for finite out-of-range values). -/
def int64Cast (z : Int) : Int :=
  if -(2 ^ 63) ≤ z ∧ z < 2 ^ 63 then z else -(2 ^ 63)

/-- pandas `.astype(int)` on a float value: raises on non-finite input,
otherwise truncates toward zero and casts to int64. -/
def astypeInt64 : PyNum → Except String Int
  | PyNum.fin q => Except.ok (int64Cast (ratTrunc q))
  | _ =>
      Except.error "ValueError: Cannot convert non-finite values (NA or inf) to integer"

/-- Full distribution normalizer: `normalizeUI` including the failure of
`.astype(int)` on textual infinities and the int64 cast of huge values. -/
def normalizeUIFull (c : Option String) : Except String Int :=
  astypeInt64 ((parseNumFull (pyStrip (stripDots (fillnaZero c)))).getD (PyNum.fin 0))

/-!  Period parsing (Hemo_8R.py lines 44-62).  `parse_periodo` lowercases and
strips the cell text, then applies
`re.match(r"([a-zç]+)\/?(\d{2}|\d{4})", s)`: a nonempty greedy run of
characters from [a-zç], an optional '/', then the alternation "two digits or
four digits" (Python tries the two-digit alternative first, and `re.match`
does not require the match to reach the end of the string).  Backtracking of
the greedy run can never help, because the alternation can only start with a
digit or the optional '/', neither of which is in [a-zç]; the translation
below therefore takes the maximal [a-zç]-prefix directly.  Digits are
modelled as ASCII digits.  A parsed result is the first day of the month. -/

/-- Calendar date produced by `dt.date(ano, mes, 1)`; the day is always 1. -/
structure PyDate where
  year : Int
  month : Nat
  day : Nat
deriving DecidableEq, Repr

/-- Character class [a-zç] of the month regex. -/
def isMonthChar (c : Char) : Bool := ('a' ≤ c && c ≤ 'z') || c = 'ç'


/-- Model of `str(s).strip().lower()` on a cell; pandas NaN prints as "nan". -/
def periodoPre (c : Option String) : List Char :=
  (((((c.getD "nan").toList.dropWhile Char.isWhitespace).reverse.dropWhile
      Char.isWhitespace).reverse).map charLower)

/-- Month dictionary of `load_data` ("março" has an accent-free duplicate). -/
def meses : List (String × Nat) :=
  [("janeiro", 1), ("fevereiro", 2), ("março", 3), ("marco", 3), ("abril", 4),
   ("maio", 5), ("junho", 6), ("julho", 7), ("agosto", 8), ("setembro", 9),
   ("outubro", 10), ("novembro", 11), ("dezembro", 12)]

/-- Model of `meses.get(mon)`. -/
def mesesGet (k : String) : Option Nat :=
  (meses.find? (fun p => p.1 = k)).map Prod.snd

/-- The alternative `\d{2}` at the head of a character list: succeeds when the
first two characters are digits, returning them. -/
def twoDigits : List Char → Option (List Char)
  | a :: b :: _ => if a.isDigit && b.isDigit then some [a, b] else none
  | _ => none

/-- The alternative `\d{4}` at the head of a character list. -/
def fourDigits : List Char → Option (List Char)
  | a :: b :: c :: d :: _ =>
      if a.isDigit && b.isDigit && c.isDigit && d.isDigit then some [a, b, c, d] else none
  | _ => none

/-- The group `(\d{2}|\d{4})`: Python regex alternation tries the left
alternative first. -/
def yearGroup (r : List Char) : Option (List Char) :=
  (twoDigits r).orElse (fun _ => fourDigits r)

/-- Skip the optional '/' of `\/?`. -/
def skipSlash : List Char → List Char
  | '/' :: t => t
  | t => t

/-- Match of `([a-zç]+)\/?(\d{2}|\d{4})` against a prefix of `s`, returning
(month letters, year digits group). -/
def regexPeriodo (s : List Char) : Option (List Char × List Char) :=
  let mon := s.takeWhile isMonthChar
  if mon.isEmpty then none
  else (yearGroup (skipSlash (s.dropWhile isMonthChar))).map (fun ys => (mon, ys))

/-- Replace 'ç' by 'c', modelling `mon.replace("ç", "c")`. -/
def cedillaToC (l : List Char) : String :=
  String.mk (l.map (fun c => if c = 'ç' then 'c' else c))

/-- Model of `parse_periodo` (Hemo_8R.py lines 48-59): parse a localized
"month/yy" period label to the first day of that month, `none` (pd.NaT) on
failure.  Years below 100 are windowed to 2000 + year. -/
def parse_periodo (cell : Option String) : Option PyDate :=
  match regexPeriodo (periodoPre cell) with
  | none => none
  | some (mon, ys) =>
      let ano : Int := (digitsVal ys : Int)
      let ano : Int := if ano < 100 then 2000 + ano else ano
      match mesesGet (cedillaToC mon) with
      | none => none
      | some mes => some ⟨ano, mes, 1⟩

/-- Variant of `parse_periodo` whose year group has only the `\d{2}`
alternative; used to state that the `\d{4}` alternative is unreachable. -/
def parse_periodoTwoOnly (cell : Option String) : Option PyDate :=
  match (fun s => let mon := s.takeWhile isMonthChar
                  if mon.isEmpty then none
                  else (twoDigits (skipSlash (s.dropWhile isMonthChar))).map
                         (fun ys => (mon, ys))) (periodoPre cell) with
  | none => none
  | some (mon, ys) =>
      let ano : Int := (digitsVal ys : Int)
      let ano : Int := if ano < 100 then 2000 + ano else ano
      match mesesGet (cedillaToC mon) with
      | none => none
      | some mes => some ⟨ano, mes, 1⟩

/-!  Acquisitions loader (1_Aquisições_MS.py, `load_coagulopatias_data`,
lines 18-59).  A raw table read with `pd.read_csv(path, sep=";", dtype=str)`
is modelled column-wise: a list of (header, cells) pairs, a cell being
`Option String`.  The loader selects the value columns by header name
(everything whose lowercased header is not "medicamento"), melts to long
form (column-major, as `DataFrame.melt` does), converts the former headers
with `to_numeric(errors="coerce")`, normalizes the quantities, drops rows
whose year did not parse, casts the year to int, and sorts by
["Ano", "medicamento"].  `sort_values` is modelled as a stable sort
(insertion sort); pandas puts NaN keys last, hence `optStrLeB`. -/

/-- Raw CSV table as a list of (header, cells) columns, every cell text. -/
structure RawTable where
  cols : List (String × List (Option String))
deriving DecidableEq, Repr

/-- Look up a column by exact header name (pandas `df["name"]`). -/
def getCol (t : RawTable) (name : String) : Option (List (Option String)) :=
  (t.cols.find? (fun p => p.1 = name)).map Prod.snd

/-- Model of Python `str.lower()` on a header. -/
def strLower (s : String) : String := String.mk (s.toList.map charLower)

/-- The value columns: `[c for c in df_raw.columns if c.lower() != "medicamento"]`. -/
def yearCols (t : RawTable) : List (String × List (Option String)) :=
  t.cols.filter (fun p => strLower p.1 ≠ "medicamento")

/-- One row of the melted (long-form) table before numeric cleanup. -/
structure MeltRow where
  medicamento : Option String
  ano : String
  quantidade : Option String
deriving DecidableEq, Repr

/-- Model of `df_raw.melt(id_vars="medicamento", value_vars=year_cols, ...)`:
column-major traversal pairing each identifier cell with the value cell. -/
def meltAcq (med : List (Option String)) (vcols : List (String × List (Option String))) :
    List MeltRow :=
  vcols.flatMap (fun p => (med.zip p.2).map (fun mc => ⟨mc.1, p.1, mc.2⟩))

/-- One row of the final long-form acquisitions table. -/
structure LongRow where
  medicamento : Option String
  ano : Int
  quantidade : ℚ
deriving DecidableEq, Repr

/-- Numeric cleanup and row filtering of the melted table: `Ano` through
`to_numeric(errors="coerce")` then `dropna(subset=["Ano"])` then
`.astype(int)`; `Quantidade` through the total normalizer. -/
def cleanAcq (l : List MeltRow) : List LongRow :=
  l.filterMap (fun r =>
    (parseNum r.ano).map (fun y => ⟨r.medicamento, ratTrunc y, normalizeQuantidade r.quantidade⟩))

/-- Lexicographic code-point order on strings (Python string comparison). -/
def charListLe : List Char → List Char → Bool
  | [], _ => true
  | _ :: _, [] => false
  | a :: as, b :: bs => if a < b then true else if b < a then false else charListLe as bs

/-- Boolean string order used by the sort models. -/
def strLeB (a b : String) : Bool := charListLe a.toList b.toList

/-- Key order on identifier cells with NaN sorted last (pandas default). -/
def optStrLeB : Option String → Option String → Bool
  | some a, some b => strLeB a b
  | some _, none => true
  | none, none => true
  | none, some _ => false

/-- Row order of `sort_values(["Ano", "medicamento"])`. -/
def AcqLe (a b : LongRow) : Prop :=
  a.ano < b.ano ∨ (a.ano = b.ano ∧ optStrLeB a.medicamento b.medicamento = true)

instance : DecidableRel AcqLe := fun a b => by unfold AcqLe; infer_instance

/-- The normalized long table produced for given identifier cells and value
columns. -/
def acqRows (med : List (Option String)) (vcols : List (String × List (Option String))) :
    List LongRow :=
  List.insertionSort AcqLe (cleanAcq (meltAcq med vcols))

/-- Model of `load_coagulopatias_data`: melt on `id_vars="medicamento"`
requires a column with that exact name (pandas raises a KeyError otherwise,
caught by the page's try/except). -/
def load_coagulopatias_data (t : RawTable) : Except String (List LongRow) :=
  match getCol t "medicamento" with
  | none => Except.error "KeyError: medicamento"
  | some med => Except.ok (acqRows med (yearCols t))

/-!  Distribution-by-service loader (Hemo_8R.py, `load_data`, lines 22-64).
The selected base columns are modelled as a record per raw row; `load_data`
normalizes the five UI columns, parses the period, and drops rows whose
period failed to parse. -/

/-- One raw row of historico_hemo8r.csv restricted to the base columns. -/
structure ServRaw where
  periodoSaida : Option String
  servico : Option String
  ui250 : Option String
  ui500 : Option String
  ui1000 : Option String
  ui1500 : Option String
  totalGeral : Option String
deriving DecidableEq, Repr

/-- One normalized row of the distribution table. -/
structure ServRow where
  periodoSaida : Option String
  servico : Option String
  ui250 : Int
  ui500 : Int
  ui1000 : Int
  ui1500 : Int
  totalGeral : Int
  periodo : PyDate
deriving DecidableEq, Repr

/-- Model of `load_data`: normalize the UI columns, derive `periodo` with
`parse_periodo`, and `dropna(subset=["periodo"])`. -/
def load_data (rows : List ServRaw) : List ServRow :=
  rows.filterMap (fun r =>
    (parse_periodo r.periodoSaida).map (fun d =>
      ⟨r.periodoSaida, r.servico, normalizeUI r.ui250, normalizeUI r.ui500,
       normalizeUI r.ui1000, normalizeUI r.ui1500, normalizeUI r.totalGeral, d⟩))

/-!  Ministry-of-Health loader (Hemo_8R.py, `load_ms_data`, lines 70-77):
plain `to_numeric(errors="coerce")` on both columns — no dot stripping, no
comma conversion — then `dropna()` (either column failing drops the row)
and an ascending sort by `Ano`. -/

/-- One raw row of hemo8R_MS.csv after the rename to `Ano`/`Quantidade`. -/
structure MsRaw where
  ano : Option String
  quantidade : Option String
deriving DecidableEq, Repr

/-- One normalized Ministry-of-Health row. -/
structure MsRow where
  ano : ℚ
  quantidade : ℚ
deriving DecidableEq, Repr

/-- Rows surviving `to_numeric` on both columns followed by `dropna()`. -/
def msClean (rows : List MsRaw) : List MsRow :=
  rows.filterMap (fun r =>
    match r.ano.bind parseNum, r.quantidade.bind parseNum with
    | some a, some q => some ⟨a, q⟩
    | _, _ => none)

/-- Row order of `sort_values("Ano")`. -/
def MsLe (a b : MsRow) : Prop := a.ano ≤ b.ano

instance : DecidableRel MsLe := fun a b => by unfold MsLe; infer_instance

/-- Model of `load_ms_data`. -/
def load_ms_data (rows : List MsRaw) : List MsRow :=
  List.insertionSort MsLe (msClean rows)

/-!  Top-N ranking (Hemo_8R.py lines 149-155):
`df.groupby("Serviço de Saúde")["Total Geral"].sum().reset_index()
   .sort_values("Total Geral", ascending=False).head(top_n)`.
`groupby` drops NaN keys and emits one row per distinct key, sorted
ascending by key.  `sort_values(ascending=False)` goes through pandas'
`nargsort`, which computes an ASCENDING argsort with the default `quicksort`
kind and then reverses the whole indexer (`indexer[::-1]`); numpy's
introsort switches to its stable insertion sort for arrays of at most 16
elements, so for at most 16 distinct services the result is exactly the
reversal of a stable ascending sort, and rows with equal totals come out in
REVERSED group-key order. -/

/-- One row of the ranking table: a service and its summed total. -/
structure RankRow where
  servico : String
  total : Int
deriving DecidableEq, Repr

/-- String order as a proposition, for the sort of group keys. -/
def StrLe (a b : String) : Prop := strLeB a b = true

instance : DecidableRel StrLe := fun a b => by unfold StrLe; infer_instance

/-- Distinct non-missing service names, ascending (groupby key order). -/
def serviceKeys (rows : List ServRow) : List String :=
  List.insertionSort StrLe ((rows.filterMap (fun r => r.servico)).dedup)

/-- Model of the groupby-sum: one row per distinct service, keys ascending. -/
def groupSum (rows : List ServRow) : List RankRow :=
  (serviceKeys rows).map (fun k =>
    ⟨k, ((rows.filter (fun r => r.servico = some k)).map (fun r => r.totalGeral)).sum⟩)

/-- Row order of `sort_values("Total Geral", ascending=False)`: a row may
precede another when its total is at least as large. -/
def RankGe (a b : RankRow) : Prop := b.total ≤ a.total

instance : DecidableRel RankGe := fun a b => by unfold RankGe; infer_instance

/-- The ascending comparison actually run by pandas' `nargsort`. -/
def RankAsc (a b : RankRow) : Prop := a.total ≤ b.total

instance : DecidableRel RankAsc := fun a b => by unfold RankAsc; infer_instance

/-- Model of the ranking: group, sum, stable ascending sort, reverse the
whole order (pandas' `indexer[::-1]` for `ascending=False`), `head(n)`. -/
def rank (rows : List ServRow) (n : Nat) : List RankRow :=
  ((List.insertionSort RankAsc (groupSum rows)).reverse).take n

/-!  Autodetecting CSV loader (2_Emicizumabe.py, `load_csv_auto`, lines
11-20).  `pd.read_csv(path, sep=s, dtype=str)` takes the first line as the
header, which fixes the column count; a later line split into MORE fields
than the header is a parser error, while a line with FEWER fields is padded
on the right with missing values (NaN); the empty file raises
EmptyDataError; every present cell is text.  (Quoting and blank-line
skipping are outside the model.)  `sep=None` with the python engine runs
`csv.Sniffer`: modelled as the first delimiter from the sniffer's preferred
list that occurs a positive, identical number of times on every line (the
full sniffer relaxes identical to 90 percent consistency and also handles
quoting). -/

/-- Date order used by the pandas `min` over the periodo column. -/
def pyDateLeB (a b : PyDate) : Bool :=
  decide (a.year < b.year) ||
    (a.year == b.year &&
      (decide (a.month < b.month) || (a.month == b.month && a.day ≤ b.day)))

/-- Minimum of the periodo column; `none` models NaN on an empty table. -/
def minPeriodo (rows : List ServRow) : Option PyDate :=
  match rows with
  | [] => none
  | r :: rs =>
      some (rs.foldl (fun a x => if pyDateLeB x.periodo a then x.periodo else a) r.periodo)

/-- `%b` month abbreviation (C locale). -/
def monthAbbr : Nat → String
  | 1 => "Jan" | 2 => "Feb" | 3 => "Mar" | 4 => "Apr" | 5 => "May" | 6 => "Jun"
  | 7 => "Jul" | 8 => "Aug" | 9 => "Sep" | 10 => "Oct" | 11 => "Nov" | 12 => "Dec"
  | _ => ""

/-- `d.strftime("%b/%Y")`. -/
def strftimeBY (d : PyDate) : String := monthAbbr d.month ++ "/" ++ toString d.year

/-- The "De" metric computation: `df["periodo"].min().strftime("%b/%Y")`,
which raises when the table is empty. -/
def kpiDe (rows : List ServRow) : Except String String :=
  match minPeriodo rows with
  | none => Except.error "AttributeError: float object has no attribute strftime"
  | some d => Except.ok (strftimeBY d)

/-- The page-level sequence: `load_data` immediately followed by the "De"
metric, with no emptiness check in between. -/
def hemoDeMetric (rows : List ServRaw) : Except String String :=
  kpiDe (load_data rows)

/-!  Supporting lemmas. -/

/-- The unsigned full parse is never negative infinity. -/
theorem parseUnsignedFull_ne_ninf (l : List Char) :
    parseUnsignedFull l ≠ some PyNum.ninf := by
  unfold parseUnsignedFull
  by_cases hi : isInfWord l
  · rw [if_pos hi]
    simp
  · rw [if_neg hi]
    cases parseUnsigned l <;> simp [PyNum.fin]

/-- Joint case analysis of the unsigned full and finite parses. -/
theorem parseUnsignedFull_cases (l : List Char) :
    (parseUnsignedFull l = none ∧ parseUnsigned l = none) ∨
    (∃ q, parseUnsignedFull l = some (PyNum.fin q) ∧ parseUnsigned l = some q) ∨
    parseUnsignedFull l = some PyNum.pinf := by
  unfold parseUnsignedFull
  by_cases hi : isInfWord l
  · rw [if_pos hi]
    right; right; rfl
  · rw [if_neg hi]
    cases hp : parseUnsigned l with
    | none => left; exact ⟨rfl, rfl⟩
    | some q => right; left; exact ⟨q, rfl, rfl⟩

/-- Joint case analysis of the full and finite cell parses: they fail
together, agree on finite values, or the full parse is an infinity. -/
theorem parseNumFull_cases (s : String) :
    (parseNumFull s = none ∧ parseNum s = none) ∨
    (∃ q, parseNumFull s = some (PyNum.fin q) ∧ parseNum s = some q) ∨
    parseNumFull s = some PyNum.pinf ∨ parseNumFull s = some PyNum.ninf := by
  rcases hls : s.toList with _ | ⟨c, t⟩
  · have hfull : parseNumFull s = parseUnsignedFull [] := by
      unfold parseNumFull; rw [hls]
    have hfin : parseNum s = parseUnsigned [] := by
      unfold parseNum; rw [hls]
    rw [hfull, hfin]
    rcases parseUnsignedFull_cases [] with ⟨h1, h2⟩ | ⟨q, h1, h2⟩ | h1
    · exact Or.inl ⟨h1, h2⟩
    · exact Or.inr (Or.inl ⟨q, h1, h2⟩)
    · exact Or.inr (Or.inr (Or.inl h1))
  · by_cases hc : c = '-'
    · subst hc
      have hfull : parseNumFull s = (parseUnsignedFull t).map PyNum.neg := by
        unfold parseNumFull; rw [hls]; rfl
      have hfin : parseNum s = (parseUnsigned t).map (fun q => -q) := by
        unfold parseNum; rw [hls]; rfl
      rw [hfull, hfin]
      rcases parseUnsignedFull_cases t with ⟨h1, h2⟩ | ⟨q, h1, h2⟩ | h1
      · rw [h1, h2]
        exact Or.inl ⟨rfl, rfl⟩
      · rw [h1, h2]
        exact Or.inr (Or.inl ⟨-q, rfl, rfl⟩)
      · rw [h1]
        exact Or.inr (Or.inr (Or.inr rfl))
    · by_cases hc2 : c = '+'
      · subst hc2
        have hfull : parseNumFull s = parseUnsignedFull t := by
          unfold parseNumFull; rw [hls]; rfl
        have hfin : parseNum s = parseUnsigned t := by
          unfold parseNum; rw [hls]; rfl
        rw [hfull, hfin]
        rcases parseUnsignedFull_cases t with ⟨h1, h2⟩ | ⟨q, h1, h2⟩ | h1
        · exact Or.inl ⟨h1, h2⟩
        · exact Or.inr (Or.inl ⟨q, h1, h2⟩)
        · exact Or.inr (Or.inr (Or.inl h1))
      · have hfull : parseNumFull s = parseUnsignedFull (c :: t) := by
          unfold parseNumFull
          rw [hls]
          split
          · next t' heq =>
              injection heq with h1 _
              exact absurd h1 hc
          · next t' heq =>
              injection heq with h1 _
              exact absurd h1 hc2
          · rfl
        have hfin : parseNum s = parseUnsigned (c :: t) := by
          unfold parseNum
          rw [hls]
          split
          · next t' heq =>
              injection heq with h1 _
              exact absurd h1 hc
          · next t' heq =>
              injection heq with h1 _
              exact absurd h1 hc2
          · rfl
        rw [hfull, hfin]
        rcases parseUnsignedFull_cases (c :: t) with ⟨h1, h2⟩ | ⟨q, h1, h2⟩ | h1
        · exact Or.inl ⟨h1, h2⟩
        · exact Or.inr (Or.inl ⟨q, h1, h2⟩)
        · exact Or.inr (Or.inr (Or.inl h1))

/-- A negative-infinity parse can only come from a leading minus sign. -/
theorem parseNumFull_ninf {s : String} (h : parseNumFull s = some PyNum.ninf) :
    '-' ∈ s.toList := by
  unfold parseNumFull at h
  split at h
  · next t heq => exact heq ▸ List.mem_cons_self '-' t
  · next t _ => exact absurd h (parseUnsignedFull_ne_ninf t)
  · exfalso
    by_cases hi : isInfWord s.toList
    · unfold parseUnsignedFull at h
      rw [if_pos hi] at h
      simp at h
    · unfold parseUnsignedFull at h
      rw [if_neg hi] at h
      cases parseUnsigned s.toList <;> simp [PyNum.fin] at h


/-- An unsigned numeral parse is never negative. -/
theorem parseUnsigned_nonneg {l : List Char} {q : ℚ} (h : parseUnsigned l = some q) :
    0 ≤ q := by
  unfold parseUnsigned at h
  split at h
  · split at h
    · exact absurd h (by simp)
    · obtain rfl : ((digitsVal (l.takeWhile Char.isDigit) : ℚ)) = q := by simpa using h
      positivity
  · split at h
    · obtain rfl : mkRat (digitsVal (l.takeWhile Char.isDigit) * 10 ^ _ +
          digitsVal _) (10 ^ _) = q := by simpa using h
      rw [Rat.mkRat_eq_div]
      positivity
    · exact absurd h (by simp)

/-- A parse of a text with no '-' character is never negative. -/
theorem parseNum_nonneg {s : String} {q : ℚ} (hm : '-' ∉ s.toList)
    (h : parseNum s = some q) : 0 ≤ q := by
  unfold parseNum at h
  split at h
  · next t heq => exact absurd (heq ▸ List.mem_cons_self '-' t) hm
  · next t _ => exact parseUnsigned_nonneg h
  · exact parseUnsigned_nonneg h

/-- Unfolding helper: the characters of a packed string. -/
theorem toList_mk (l : List Char) : (String.mk l).toList = l := rfl

/-- Truncation toward zero preserves non-negativity. -/
theorem ratTrunc_nonneg {q : ℚ} (h : 0 ≤ q) : 0 ≤ ratTrunc q := by
  unfold ratTrunc
  exact Int.tdiv_nonneg (Rat.num_nonneg.mpr h) (by positivity)

/-- The ','→'.' replacement never produces a '-'. -/
theorem mem_minus_commaToDot {s : String} (h : '-' ∈ (commaToDot s).toList) :
    '-' ∈ s.toList := by
  simp only [commaToDot, toList_mk, List.mem_map] at h
  obtain ⟨c, hc, he⟩ := h
  by_cases h' : c = ','
  · rw [h'] at he
    exact absurd he (by decide)
  · rw [if_neg h'] at he
    exact he ▸ hc

/-- Removing dots never produces a '-'. -/
theorem mem_minus_stripDots {s : String} (h : '-' ∈ (stripDots s).toList) :
    '-' ∈ s.toList := by
  simp only [stripDots, toList_mk] at h
  exact List.mem_of_mem_filter h

/-- Trimming never produces a '-'. -/
theorem mem_minus_pyStrip {s : String} (h : '-' ∈ (pyStrip s).toList) :
    '-' ∈ s.toList := by
  simp only [pyStrip, toList_mk, List.mem_reverse] at h
  exact (List.dropWhile_sublist _).subset
    (List.mem_reverse.mp ((List.dropWhile_sublist _).subset h))

/-- Membership in the cleaned long table. -/
theorem mem_cleanAcq {l : List MeltRow} {r : LongRow} :
    r ∈ cleanAcq l ↔ ∃ a ∈ l, ∃ y, parseNum a.ano = some y ∧
      r = ⟨a.medicamento, ratTrunc y, normalizeQuantidade a.quantidade⟩ := by
  unfold cleanAcq
  rw [List.mem_filterMap]
  constructor
  · rintro ⟨a, ha, hf⟩
    rcases hy : parseNum a.ano with _ | y <;> rw [hy] at hf
    · simp at hf
    · refine ⟨a, ha, y, hy, ?_⟩
      simpa using hf.symm
  · rintro ⟨a, ha, y, hy, rfl⟩
    exact ⟨a, ha, by rw [hy]; rfl⟩

/-- Membership in the melted table. -/
theorem mem_meltAcq {med : List (Option String)}
    {vcols : List (String × List (Option String))} {a : MeltRow} :
    a ∈ meltAcq med vcols ↔
      ∃ p ∈ vcols, ∃ mc ∈ med.zip p.2, a = ⟨mc.1, p.1, mc.2⟩ := by
  unfold meltAcq
  rw [List.mem_flatMap]
  constructor
  · rintro ⟨p, hp, hm⟩
    obtain ⟨mc, hmc, he⟩ := List.mem_map.mp hm
    exact ⟨p, hp, mc, hmc, he.symm⟩
  · rintro ⟨p, hp, mc, hmc, rfl⟩
    exact ⟨p, hp, List.mem_map.mpr ⟨mc, hmc, rfl⟩⟩

/-- Membership in the cleaned Ministry-of-Health table. -/
theorem mem_msClean {rows : List MsRaw} {x : MsRow} :
    x ∈ msClean rows ↔ ∃ r ∈ rows, r.ano.bind parseNum = some x.ano ∧
      r.quantidade.bind parseNum = some x.quantidade := by
  unfold msClean
  rw [List.mem_filterMap]
  constructor
  · rintro ⟨r, hr, hf⟩
    rcases ha : r.ano.bind parseNum with _ | a <;>
      rcases hq : r.quantidade.bind parseNum with _ | q <;>
        rw [ha, hq] at hf <;> simp at hf
    subst hf
    exact ⟨r, hr, ha, hq⟩
  · rintro ⟨r, hr, ha, hq⟩
    refine ⟨r, hr, ?_⟩
    rw [ha, hq]

/-- Membership in the normalized distribution table. -/
theorem mem_load_data {rows : List ServRaw} {r : ServRow} :
    r ∈ load_data rows ↔ ∃ a ∈ rows, ∃ d, parse_periodo a.periodoSaida = some d ∧
      r = ⟨a.periodoSaida, a.servico, normalizeUI a.ui250, normalizeUI a.ui500,
           normalizeUI a.ui1000, normalizeUI a.ui1500, normalizeUI a.totalGeral, d⟩ := by
  unfold load_data
  rw [List.mem_filterMap]
  constructor
  · rintro ⟨a, ha, hf⟩
    rcases hd : parse_periodo a.periodoSaida with _ | d <;> rw [hd] at hf
    · simp at hf
    · refine ⟨a, ha, d, hd, ?_⟩
      simpa using hf.symm
  · rintro ⟨a, ha, d, hd, rfl⟩
    exact ⟨a, ha, by rw [hd]; rfl⟩

/-- The length of a filterMap counts the inputs mapped to `some`. -/
theorem length_filterMap_isSome {α β : Type} (f : α → Option β) (l : List α) :
    (l.filterMap f).length = (l.filter (fun a => (f a).isSome)).length := by
  induction l with
  | nil => rfl
  | cons a t ih => cases h : f a <;> simp [List.filterMap_cons, List.filter_cons, h, ih]

/-!  Claim theorems. -/

/-- Claim C1, counterexample: the distribution-by-service loader (`load_data`,
Hemo_8R.py lines 32-39) does not replace ',' by '.': on the cell "1.234,56"
its cleaned text is "1234,56", which does not parse, so the normalized value
is 0 and not 1234.56 as the claim states for both loaders; moreover that
loader is not total — `pd.to_numeric` parses the textual "inf", and the
subsequent `.astype(int)` raises on the non-finite value. -/
theorem c1_counterexample :
    normalizeUI (some "1.234,56") = 0 ∧
    pyStrip (stripDots (fillnaZero (some "1.234,56"))) = "1234,56" ∧
    parseNum "1234,56" = none ∧
    (1234.56 : ℚ) ≠ 0 ∧
    normalizeUIFull (some "1.234,56") = Except.ok 0 ∧
    normalizeUIFull (some "inf") =
      Except.error "ValueError: Cannot convert non-finite values (NA or inf) to integer" :=
  ⟨by decide, by decide, by decide, by decide, rfl, rfl⟩

/-- Claim C1, amended: missing cells are filled with "0" and values whose
cleaned text does not parse coerce to 0; on the spec's examples the
acquisitions normalizer gives "3.100" ↦ 3100, "1.234,56" ↦ 1234.56,
"" ↦ 0, "abc" ↦ 0, and the distribution-by-service normalizer — which
strips dots and whitespace but performs no comma conversion — gives
"3.100" ↦ 3100, "" ↦ 0, "abc" ↦ 0, and "1.234,56" ↦ 0.  Totality is
qualified: the distribution normalizer either raises the `.astype(int)`
error on a textual infinity or returns the int64 cast of the finite
normalizer's value, and the acquisitions normalizer never raises but can
retain a non-finite value ("inf" stays +inf there). -/
theorem c1_normalizer_total :
    (∀ c : Option String,
        normalizeUIFull c =
            Except.error
              "ValueError: Cannot convert non-finite values (NA or inf) to integer" ∨
          normalizeUIFull c = Except.ok (int64Cast (normalizeUI c))) ∧
    (∀ c : Option String,
        normalizeQuantidadeFull c = PyNum.fin (normalizeQuantidade c) ∨
          normalizeQuantidadeFull c = PyNum.pinf ∨
            normalizeQuantidadeFull c = PyNum.ninf) ∧
    normalizeQuantidadeFull (some "inf") = PyNum.pinf ∧
    normalizeUIFull (some "inf") =
      Except.error "ValueError: Cannot convert non-finite values (NA or inf) to integer" ∧
    (∀ s : String, parseNum (commaToDot (stripDots s)) = none →
        normalizeQuantidade (some s) = 0) ∧
    (∀ s : String, ∀ q : ℚ, parseNum (commaToDot (stripDots s)) = some q →
        normalizeQuantidade (some s) = q) ∧
    (∀ s : String, parseNum (pyStrip (stripDots s)) = none → normalizeUI (some s) = 0) ∧
    (∀ s : String, ∀ q : ℚ, parseNum (pyStrip (stripDots s)) = some q →
        normalizeUI (some s) = ratTrunc q) ∧
    normalizeQuantidade none = 0 ∧ normalizeUI none = 0 ∧
    normalizeQuantidade (some "3.100") = 3100 ∧
    normalizeQuantidade (some "1.234,56") = 1234.56 ∧
    normalizeQuantidade (some "") = 0 ∧ normalizeQuantidade (some "abc") = 0 ∧
    normalizeUI (some "3.100") = 3100 ∧ normalizeUI (some "") = 0 ∧
    normalizeUI (some "abc") = 0 ∧ normalizeUI (some "1.234,56") = 0 := by
  refine ⟨?_, ?_, rfl, rfl, ?_, ?_, ?_, ?_, by decide, by decide, by decide,
    by decide, by decide, by decide, by decide, by decide, by decide, by decide⟩
  · intro c
    unfold normalizeUIFull
    rcases parseNumFull_cases (pyStrip (stripDots (fillnaZero c))) with
      ⟨h1, h2⟩ | ⟨q, h1, h2⟩ | h1 | h1
    · right
      rw [h1]
      unfold normalizeUI
      rw [h2]
      rfl
    · right
      rw [h1]
      unfold normalizeUI
      rw [h2]
      rfl
    · left
      rw [h1]
      rfl
    · left
      rw [h1]
      rfl
  · intro c
    unfold normalizeQuantidadeFull
    rcases parseNumFull_cases (commaToDot (stripDots (fillnaZero c))) with
      ⟨h1, h2⟩ | ⟨q, h1, h2⟩ | h1 | h1
    · left
      rw [h1]
      unfold normalizeQuantidade
      rw [h2]
      rfl
    · left
      rw [h1]
      unfold normalizeQuantidade
      rw [h2]
      rfl
    · right; left
      rw [h1]
      rfl
    · right; right
      rw [h1]
      rfl
  · intro s h
    simp [normalizeQuantidade, fillnaZero, h]
  · intro s q h
    simp [normalizeQuantidade, fillnaZero, h]
  · intro s h
    simp only [normalizeUI, fillnaZero, Option.getD_some, h, Option.getD_none]
    decide
  · intro s q h
    simp [normalizeUI, fillnaZero, h]

/-- Witness for C1's amended theorem at concrete unparseable inputs. -/
theorem c1_normalizer_total_witness :
    normalizeQuantidade (some "x,y") = 0 ∧ normalizeUI (some "q9") = 0 :=
  ⟨c1_normalizer_total.2.2.2.2.1 "x,y" (by decide),
   c1_normalizer_total.2.2.2.2.2.2.1 "q9" (by decide)⟩

/-- Claim C2, evaluation at the failing input: `parse_periodo` maps
"janeiro/19" to 2019-01-01 and "xyz/19" to NaT (and `load_data` drops the
row), as the claim states, but it maps "dezembro/2023" to 2020-12-01, not
2023-12-01: the regex alternation `(\d{2}|\d{4})` matches the first two
digits "20", which are then windowed to 2020. -/
theorem c2_parse_periodo_eval :
    parse_periodo (some "janeiro/19") = some ⟨2019, 1, 1⟩ ∧
    parse_periodo (some "dezembro/2023") = some ⟨2020, 12, 1⟩ ∧
    parse_periodo (some "xyz/19") = none ∧
    load_data [⟨some "xyz/19", some "A", some "1", some "1", some "1",
      some "1", some "1"⟩] = [] :=
  ⟨by decide, by decide, by decide, by decide⟩

/-- Claim C3, counterexample: the normalizers preserve the sign of negative
numeric text, so a table can contain a negative quantity ("-5" stays -5 in
the acquisitions table); an acquisitions cell holding the textual "inf"
yields a non-finite quantity rather than a defined finite number; and the
Ministry-of-Health loader drops a row whose quantity does not parse instead
of zero-filling it. -/
theorem c3_counterexample :
    load_coagulopatias_data ⟨[("medicamento", [some "X"]), ("2019", [some "-5"])]⟩ =
      Except.ok [⟨some "X", 2019, -5⟩] ∧
    (-5 : ℚ) < 0 ∧
    normalizeQuantidadeFull (some "inf") = PyNum.pinf ∧
    load_ms_data [⟨some "2019", some "abc"⟩] = [] :=
  ⟨rfl, by decide, rfl, by decide⟩

/-- Claim C3, amended: quantity/UI values are defined numbers but not
necessarily finite or non-negative.  A minus-free acquisitions cell yields a
finite non-negative value or +inf (the textual "inf" parses and that column
has no int cast, so it survives without raising); a minus-free distribution
cell either makes `.astype(int)` raise (textual infinity) or yields an int
that is non-negative whenever its truncated value is below 2^63 and the
INT64_MIN sentinel of the x86 float→int64 cast otherwise.  Missing or
unparseable numeric input coerces to 0 in the acquisitions and
distribution-by-service loaders, while the Ministry-of-Health loader drops
such rows; and every row whose key date/year fails to parse is excluded
entirely: each retained acquisitions row carries a parsed year column, each
retained distribution row satisfies `parse_periodo` on its own period cell,
the distribution row count equals the count of parseable periods, and each
retained Ministry-of-Health row parses in both columns. -/
theorem c3_invariants :
    (∀ c : Option String, '-' ∉ (fillnaZero c).toList → 0 ≤ normalizeQuantidade c) ∧
    (∀ c : Option String, '-' ∉ (fillnaZero c).toList →
        (∃ q, normalizeQuantidadeFull c = PyNum.fin q ∧ 0 ≤ q) ∨
          normalizeQuantidadeFull c = PyNum.pinf) ∧
    (∀ c : Option String, '-' ∉ (fillnaZero c).toList → 0 ≤ normalizeUI c) ∧
    (∀ c : Option String, '-' ∉ (fillnaZero c).toList →
        normalizeUIFull c =
            Except.error
              "ValueError: Cannot convert non-finite values (NA or inf) to integer" ∨
          ∃ z, normalizeUIFull c = Except.ok z ∧ (0 ≤ z ∨ z = -(2 ^ 63))) ∧
    (∀ (c : Option String) (q : ℚ), '-' ∉ (fillnaZero c).toList →
        parseNumFull (pyStrip (stripDots (fillnaZero c))) = some (PyNum.fin q) →
        ratTrunc q < 2 ^ 63 →
        normalizeUIFull c = Except.ok (ratTrunc q) ∧ 0 ≤ ratTrunc q) ∧
    normalizeQuantidadeFull (some "inf") = PyNum.pinf ∧
    normalizeUIFull (some "inf") =
      Except.error "ValueError: Cannot convert non-finite values (NA or inf) to integer" ∧
    normalizeUIFull (some "9300000000000000000") = Except.ok (-(2 ^ 63)) ∧
    '-' ∉ (fillnaZero (some "9300000000000000000")).toList ∧
    (∀ c : Option String, parseNum (commaToDot (stripDots (fillnaZero c))) = none →
        normalizeQuantidade c = 0) ∧
    (∀ c : Option String, parseNum (pyStrip (stripDots (fillnaZero c))) = none →
        normalizeUI c = 0) ∧
    (∀ (med : List (Option String)) (vcols : List (String × List (Option String)))
        (r : LongRow), r ∈ acqRows med vcols →
        ∃ p ∈ vcols, ∃ y, parseNum p.1 = some y ∧ r.ano = ratTrunc y) ∧
    (∀ (rows : List ServRaw) (r : ServRow), r ∈ load_data rows →
        parse_periodo r.periodoSaida = some r.periodo) ∧
    (∀ rows : List ServRaw, (load_data rows).length =
        (rows.filter (fun r => (parse_periodo r.periodoSaida).isSome)).length) ∧
    (∀ (rows : List MsRaw) (x : MsRow), x ∈ load_ms_data rows →
        ∃ rr ∈ rows, rr.ano.bind parseNum = some x.ano ∧
          rr.quantidade.bind parseNum = some x.quantidade) := by
  refine ⟨?_, ?_, ?_, ?_, ?_, rfl, rfl, rfl, by decide, ?_, ?_, ?_, ?_, ?_, ?_⟩
  · intro c hm
    unfold normalizeQuantidade
    rcases hp : parseNum (commaToDot (stripDots (fillnaZero c))) with _ | q
    · simp
    · simp only [Option.getD_some]
      exact parseNum_nonneg
        (fun hmem => hm (mem_minus_stripDots (mem_minus_commaToDot hmem))) hp
  · intro c hm
    unfold normalizeQuantidadeFull
    rcases parseNumFull_cases (commaToDot (stripDots (fillnaZero c))) with
      ⟨h1, _⟩ | ⟨q, h1, h2⟩ | h1 | h1
    · left
      rw [h1]
      exact ⟨0, rfl, le_refl 0⟩
    · left
      rw [h1]
      exact ⟨q, rfl,
        parseNum_nonneg
          (fun hmem => hm (mem_minus_stripDots (mem_minus_commaToDot hmem))) h2⟩
    · right
      rw [h1]
      rfl
    · exfalso
      exact hm (mem_minus_stripDots (mem_minus_commaToDot (parseNumFull_ninf h1)))
  · intro c hm
    unfold normalizeUI
    rcases hp : parseNum (pyStrip (stripDots (fillnaZero c))) with _ | q
    · simp only [Option.getD_none]
      decide
    · simp only [Option.getD_some]
      exact ratTrunc_nonneg
        (parseNum_nonneg (fun hmem => hm (mem_minus_stripDots (mem_minus_pyStrip hmem))) hp)
  · intro c hm
    unfold normalizeUIFull
    rcases parseNumFull_cases (pyStrip (stripDots (fillnaZero c))) with
      ⟨h1, _⟩ | ⟨q, h1, h2⟩ | h1 | h1
    · right
      rw [h1]
      exact ⟨0, rfl, Or.inl (le_refl 0)⟩
    · right
      rw [h1]
      have hq : 0 ≤ q :=
        parseNum_nonneg
          (fun hmem => hm (mem_minus_stripDots (mem_minus_pyStrip hmem))) h2
      have ht : 0 ≤ ratTrunc q := ratTrunc_nonneg hq
      refine ⟨int64Cast (ratTrunc q), rfl, ?_⟩
      unfold int64Cast
      by_cases hr : -(2 ^ 63) ≤ ratTrunc q ∧ ratTrunc q < 2 ^ 63
      · rw [if_pos hr]
        exact Or.inl ht
      · rw [if_neg hr]
        exact Or.inr rfl
    · left
      rw [h1]
      rfl
    · exfalso
      exact hm (mem_minus_stripDots (mem_minus_pyStrip (parseNumFull_ninf h1)))
  · intro c q hm hf hlt
    have h2 : parseNum (pyStrip (stripDots (fillnaZero c))) = some q := by
      rcases parseNumFull_cases (pyStrip (stripDots (fillnaZero c))) with
        ⟨h1, _⟩ | ⟨q', h1, h2⟩ | h1 | h1
      · rw [hf] at h1
        exact absurd h1 (by simp)
      · rw [hf] at h1
        injection h1 with h1
        injection h1 with h1
        rw [← h1] at h2
        exact h2
      · rw [hf] at h1
        exact absurd h1 (by simp)
      · rw [hf] at h1
        exact absurd h1 (by simp)
    have hq : 0 ≤ q :=
      parseNum_nonneg
        (fun hmem => hm (mem_minus_stripDots (mem_minus_pyStrip hmem))) h2
    have ht : 0 ≤ ratTrunc q := ratTrunc_nonneg hq
    refine ⟨?_, ht⟩
    unfold normalizeUIFull
    rw [hf]
    show Except.ok (int64Cast (ratTrunc q)) = Except.ok (ratTrunc q)
    unfold int64Cast
    rw [if_pos ⟨le_trans (by norm_num) ht, hlt⟩]
  · intro c h
    simp [normalizeQuantidade, h]
  · intro c h
    simp only [normalizeUI, h, Option.getD_none]
    decide
  · intro med vcols r hr
    rw [acqRows, List.mem_insertionSort, mem_cleanAcq] at hr
    obtain ⟨a, ha, y, hy, rfl⟩ := hr
    obtain ⟨p, hp, mc, _, rfl⟩ := mem_meltAcq.mp ha
    exact ⟨p, hp, y, hy, rfl⟩
  · intro rows r hr
    obtain ⟨a, _, d, hd, rfl⟩ := mem_load_data.mp hr
    exact hd
  · intro rows
    unfold load_data
    rw [length_filterMap_isSome]
    congr 1
    apply List.filter_congr
    intro r _
    cases parse_periodo r.periodoSaida <;> rfl
  · intro rows x hx
    rw [load_ms_data, List.mem_insertionSort, mem_msClean] at hx
    exact hx

/-- Witness for C3's amended theorem at concrete inputs: a minus-free cell
normalizes non-negatively, and an unparseable one coerces to 0. -/
theorem c3_invariants_witness :
    (0 ≤ normalizeQuantidade (some "7,25")) ∧ (0 ≤ normalizeUI (some " 12 ")) ∧
    normalizeQuantidade (some "w2w") = 0 ∧
    (normalizeUIFull (some "42") = Except.ok (ratTrunc 42) ∧ 0 ≤ ratTrunc (42 : ℚ)) :=
  ⟨c3_invariants.1 (some "7,25") (by decide),
   c3_invariants.2.2.1 (some " 12 ") (by decide),
   c3_invariants.2.2.2.2.2.2.2.2.2.1 (some "w2w") (by decide),
   c3_invariants.2.2.2.2.1 (some "42") 42 (by decide) (by decide) (by decide)⟩

/-- Claim C9: when every row's "Período de saída" is unparseable, `load_data`
still succeeds with an empty table, and the page's very next step — the "De"
metric taking `df["periodo"].min().strftime(...)` with no emptiness guard —
raises an uncaught AttributeError (pandas `min` of an empty column is NaN,
a float without `strftime`). -/
theorem c9_empty_kpi (rows : List ServRaw)
    (h : ∀ r ∈ rows, parse_periodo r.periodoSaida = none) :
    load_data rows = [] ∧
    hemoDeMetric rows =
      Except.error "AttributeError: float object has no attribute strftime" := by
  have hl : load_data rows = [] := by
    unfold load_data
    rw [List.filterMap_eq_nil_iff]
    intro a ha
    rw [h a ha]
    rfl
  refine ⟨hl, ?_⟩
  unfold hemoDeMetric
  rw [hl]
  rfl

/-- Witness for C9 on a one-row file whose period cell is unparseable. -/
theorem c9_empty_kpi_witness :
    load_data [⟨some "xyz/19", some "A", some "1", some "2", some "3",
      some "4", some "10"⟩] = [] ∧
    hemoDeMetric [⟨some "xyz/19", some "A", some "1", some "2", some "3",
      some "4", some "10"⟩] =
      Except.error "AttributeError: float object has no attribute strftime" :=
  c9_empty_kpi _ (by decide)

/-- Claim C10: `load_ms_data` applies no locale cleanup — each column goes
through plain `to_numeric`, so "3.100" parses as 3.1 and "1,5" fails — and a
row is retained exactly when both columns parse (unparseable rows are
dropped, not zero-filled). -/
theorem c10_ms_loader :
    (∀ (rows : List MsRaw) (x : MsRow),
        x ∈ load_ms_data rows ↔ ∃ r ∈ rows, r.ano.bind parseNum = some x.ano ∧
          r.quantidade.bind parseNum = some x.quantidade) ∧
    (∀ rows : List MsRaw, List.Perm (load_ms_data rows) (msClean rows)) ∧
    parseNum "3.100" = some 3.1 ∧
    load_ms_data [⟨some "2019", some "3.100"⟩] = [⟨2019, 3.1⟩] ∧
    parseNum "1,5" = none ∧
    load_ms_data [⟨some "2019", some "1,5"⟩] = [] ∧
    load_ms_data [⟨some "abc", some "5"⟩] = [] ∧
    load_ms_data [⟨none, some "5"⟩] = [] := by
  refine ⟨?_, ?_, by decide, by decide, by decide, by decide, by decide, by decide⟩
  · intro rows x
    rw [load_ms_data, List.mem_insertionSort, mem_msClean]
  · intro rows
    exact List.perm_insertionSort _ _

/-- Witness for C10: the theorem applied to the dot-grouped input. -/
theorem c10_ms_loader_witness :
    load_ms_data [⟨some "2019", some "3.100"⟩] = [⟨2019, 3.1⟩] :=
  c10_ms_loader.2.2.2.1

instance : IsTotal RankRow RankAsc := ⟨fun a b => le_total a.total b.total⟩

instance : IsTrans RankRow RankAsc := ⟨fun _ _ _ h1 h2 => le_trans h1 h2⟩

/-- Stability of one ordered insertion with respect to a total value:
the rows of a given total keep their relative order. -/
theorem filter_orderedInsert_rank (t : Int) (x : RankRow) (l : List RankRow) :
    (List.orderedInsert RankAsc x l).filter (fun r => r.total == t) =
      if x.total == t then x :: l.filter (fun r => r.total == t)
      else l.filter (fun r => r.total == t) := by
  induction l with
  | nil =>
      simp only [List.orderedInsert, List.filter]
      by_cases px : (x.total == t) <;> simp [px]
  | cons y ys ih =>
      simp only [List.orderedInsert]
      split
      · simp only [List.filter_cons]
      · next hxy =>
          have hne : x.total ≠ y.total := fun he => hxy (le_of_eq he)
          simp only [List.filter_cons, ih]
          by_cases px : (x.total == t) <;> by_cases py : (y.total == t)
          · exact absurd ((beq_iff_eq.mp px).trans (beq_iff_eq.mp py).symm) hne
          · simp [px, py]
          · simp [px, py]
          · simp [px, py]

/-- Stability of the ascending insertion sort run inside `nargsort`: for
every total, the rows carrying that total appear in the same order as in
the grouped input. -/
theorem filter_insertionSort_rank (t : Int) (l : List RankRow) :
    (List.insertionSort RankAsc l).filter (fun r => r.total == t) =
      l.filter (fun r => r.total == t) := by
  induction l with
  | nil => rfl
  | cons x xs ih =>
      simp only [List.insertionSort, filter_orderedInsert_rank, ih, List.filter_cons]

/-- The spec's example input for the top-N ranking: four services with
summed totals A:50, B:30, C:80, D:10. -/
def exRows : List ServRow :=
  [⟨some "p", some "A", 0, 0, 0, 0, 50, ⟨2019, 1, 1⟩⟩,
   ⟨some "p", some "B", 0, 0, 0, 0, 30, ⟨2019, 1, 1⟩⟩,
   ⟨some "p", some "C", 0, 0, 0, 0, 80, ⟨2019, 1, 1⟩⟩,
   ⟨some "p", some "D", 0, 0, 0, 0, 10, ⟨2019, 1, 1⟩⟩]

/-- A tied ranking input: services A and C share the top total 50. -/
def exTie : List ServRow :=
  [⟨some "p", some "A", 0, 0, 0, 0, 50, ⟨2019, 1, 1⟩⟩,
   ⟨some "p", some "B", 0, 0, 0, 0, 30, ⟨2019, 1, 1⟩⟩,
   ⟨some "p", some "C", 0, 0, 0, 0, 50, ⟨2019, 1, 1⟩⟩,
   ⟨some "p", some "D", 0, 0, 0, 0, 10, ⟨2019, 1, 1⟩⟩]

/-- Claim C5, counterexample: ties do NOT keep the post-group-by order.
With totals A:50, B:30, C:50, D:10 the grouped table lists A before C, but
`sort_values("Total Geral", ascending=False)` reverses an ascending argsort
(pandas `nargsort` runs `indexer[::-1]`), so the top-2 ranking is
[C:50, A:50], not [A:50, C:50]. -/
theorem c5_counterexample :
    groupSum exTie =
      [⟨"A", 50⟩, ⟨"B", 30⟩, ⟨"C", 50⟩, ⟨"D", 10⟩] ∧
    rank exTie 2 = [⟨"C", 50⟩, ⟨"A", 50⟩] ∧
    rank exTie 2 ≠ [⟨"A", 50⟩, ⟨"C", 50⟩] := by
  refine ⟨by decide, by decide, by decide⟩

/-- Claim C5, amended: the top-N ranking returns min(n, number of entities)
rows, in descending order of summed total, keeping every retained total at
least as large as every dropped one; rows with tied totals appear in the
REVERSE of the grouped input's (ascending-key) order, because pandas
descends by reversing an ascending argsort — exact for at most 16 entities,
where numpy's default sort is its stable insertion sort; when fewer than n
entities exist it returns all of them; and on totals
{A:50, B:30, C:80, D:10} with n = 2 it returns [C:80, A:50]. -/
theorem c5_rank_topn :
    (∀ (rows : List ServRow) (n : Nat),
        (rank rows n).length = min n (groupSum rows).length) ∧
    (∀ (rows : List ServRow) (n : Nat), List.Sorted RankGe (rank rows n)) ∧
    (∀ (rows : List ServRow) (n : Nat), ∀ a ∈ rank rows n,
        ∀ b ∈ ((List.insertionSort RankAsc (groupSum rows)).reverse).drop n,
          b.total ≤ a.total) ∧
    (∀ (rows : List ServRow) (t : Int), (groupSum rows).length ≤ 16 →
        ((List.insertionSort RankAsc (groupSum rows)).reverse).filter
            (fun r => r.total == t) =
          ((groupSum rows).filter (fun r => r.total == t)).reverse) ∧
    (∀ (rows : List ServRow) (n : Nat), (groupSum rows).length ≤ n →
        List.Perm (rank rows n) (groupSum rows)) ∧
    rank exRows 2 = [⟨"C", 80⟩, ⟨"A", 50⟩] := by
  have hrev : ∀ rows : List ServRow,
      List.Sorted RankGe ((List.insertionSort RankAsc (groupSum rows)).reverse) := by
    intro rows
    exact List.pairwise_reverse.mpr
      ((List.sorted_insertionSort RankAsc (groupSum rows)).imp (fun h => h))
  refine ⟨?_, ?_, ?_, ?_, ?_, by decide⟩
  · intro rows n
    rw [rank, List.length_take, List.length_reverse, List.length_insertionSort]
  · intro rows n
    exact List.Pairwise.sublist (List.take_sublist _ _) (hrev rows)
  · intro rows n a ha b hb
    rw [rank] at ha
    exact List.Sorted.rel_of_mem_take_of_mem_drop (hrev rows) ha hb
  · intro rows t _
    rw [List.filter_reverse, filter_insertionSort_rank]
  · intro rows n h
    rw [rank, List.take_of_length_le
      (by rw [List.length_reverse, List.length_insertionSort]; exact h)]
    exact (List.reverse_perm _).trans (List.perm_insertionSort _ _)

/-- Witness for C5: instantiation on the spec's example. -/
theorem c5_rank_topn_witness :
    rank exRows 2 = [⟨"C", 80⟩, ⟨"A", 50⟩] ∧
    (rank exRows 2).length = min 2 (groupSum exRows).length ∧
    ((List.insertionSort RankAsc (groupSum exRows)).reverse).filter
        (fun r => r.total == (50 : Int)) =
      ((groupSum exRows).filter (fun r => r.total == (50 : Int))).reverse ∧
    List.Perm (rank exRows 4) (groupSum exRows) :=
  ⟨c5_rank_topn.2.2.2.2.2, c5_rank_topn.1 exRows 2,
   c5_rank_topn.2.2.2.1 exRows 50 (by decide),
   c5_rank_topn.2.2.2.2.1 exRows 4 (by decide)⟩

/-- Indexed form of the per-column filtered sum: summing a function of the
value cells over the rows whose identifier equals `k` is the indexed sum
over row positions. -/
theorem zip_filter_sum (k : String) (f : Option String → ℚ) :
    ∀ (med cells : List (Option String)), cells.length = med.length →
      (((med.zip cells).filter (fun mc => mc.1 == some k)).map (fun mc => f mc.2)).sum =
        ∑ i ∈ Finset.range med.length,
          (if med.getD i none = some k then f (cells.getD i none) else 0) := by
  intro med
  induction med with
  | nil => intro cells _; simp
  | cons m ms ih =>
      intro cells hlen
      rcases cells with _ | ⟨c, cs⟩
      · simp at hlen
      · have hlen' : cs.length = ms.length := by simpa using hlen
        rw [List.zip_cons_cons, List.filter_cons]
        simp only [List.length_cons]
        rw [Finset.sum_range_succ']
        simp only [List.getD_cons_succ, List.getD_cons_zero]
        rw [← ih cs hlen']
        by_cases hm : m = some k
        · rw [if_pos hm, if_pos (by exact beq_iff_eq.mpr hm)]
          simp [add_comm]
        · rw [if_neg hm, if_neg (by simpa using hm)]
          simp

/-- Cleaning a single melted column: nothing survives when the header does
not parse; otherwise every row survives with the truncated year. -/
theorem cleanAcq_map_mk (h : String) (l : List (Option String × Option String)) :
    cleanAcq (l.map (fun mc => ⟨mc.1, h, mc.2⟩)) =
      match parseNum h with
      | none => []
      | some y => l.map (fun mc => ⟨mc.1, ratTrunc y, normalizeQuantidade mc.2⟩) := by
  induction l with
  | nil => cases parseNum h <;> rfl
  | cons a l ih =>
      rw [List.map_cons]
      unfold cleanAcq at ih ⊢
      rw [List.filterMap_cons]
      cases hy : parseNum h with
      | none => simp only [hy] at ih ⊢; simpa using ih
      | some y => simp only [hy] at ih ⊢; simp [ih]

/-- Filtered quantity sum contributed by one column. -/
theorem colSum (k h : String) (med cells : List (Option String))
    (hlen : cells.length = med.length) :
    (((cleanAcq ((med.zip cells).map (fun mc => ⟨mc.1, h, mc.2⟩))).filter
        (fun r => r.medicamento == some k)).map (fun r => r.quantidade)).sum =
      if (parseNum h).isSome then
        ∑ i ∈ Finset.range med.length,
          (if med.getD i none = some k then normalizeQuantidade (cells.getD i none) else 0)
      else 0 := by
  rw [cleanAcq_map_mk]
  cases hy : parseNum h with
  | none => simp
  | some y =>
      simp only [Option.isSome_some, if_true]
      rw [List.filter_map, List.map_map]
      exact zip_filter_sum k normalizeQuantidade med cells hlen

/-- One melt step. -/
theorem meltAcq_cons (med : List (Option String)) (p : String × List (Option String))
    (ps : List (String × List (Option String))) :
    meltAcq med (p :: ps) =
      (med.zip p.2).map (fun mc => ⟨mc.1, p.1, mc.2⟩) ++ meltAcq med ps := by
  unfold meltAcq
  rw [List.flatMap_cons]

/-- Cleaning distributes over append. -/
theorem cleanAcq_append (a b : List MeltRow) :
    cleanAcq (a ++ b) = cleanAcq a ++ cleanAcq b :=
  List.filterMap_append a b _

/-- Round-trip of the reshape on the cleaned (unsorted) table: summing the
normalized quantities of the rows of identifier `k` equals the indexed
row-major sum of the normalized cells of the year columns whose header
parses. -/
theorem c4_key (med : List (Option String)) (k : String) :
    ∀ vcols : List (String × List (Option String)),
      (∀ p ∈ vcols, p.2.length = med.length) →
      (((cleanAcq (meltAcq med vcols)).filter (fun r => r.medicamento == some k)).map
          (fun r => r.quantidade)).sum =
        ∑ i ∈ Finset.range med.length,
          (if med.getD i none = some k then
            ((vcols.filter (fun p => (parseNum p.1).isSome)).map
              (fun p => normalizeQuantidade (p.2.getD i none))).sum
          else 0) := by
  intro vcols
  induction vcols with
  | nil =>
      intro _
      simp [meltAcq, cleanAcq]
  | cons p ps ih =>
      intro hrect
      have hp : p.2.length = med.length := hrect p (List.mem_cons_self p ps)
      have hrect' : ∀ q ∈ ps, q.2.length = med.length :=
        fun q hq => hrect q (List.mem_cons_of_mem p hq)
      rw [meltAcq_cons, cleanAcq_append, List.filter_append, List.map_append,
        List.sum_append, colSum k p.1 med p.2 hp, ih hrect', List.filter_cons]
      by_cases hps : ((parseNum p.1).isSome : Bool) = true
      · rw [if_pos hps, if_pos hps]
        rw [← Finset.sum_add_distrib]
        apply Finset.sum_congr rfl
        intro i _
        by_cases hi : med.getD i none = some k
        · rw [if_pos hi, if_pos hi, if_pos hi, List.map_cons, List.sum_cons]
        · rw [if_neg hi, if_neg hi, if_neg hi, add_zero]
      · rw [if_neg hps, if_neg hps, zero_add]

/-- Claim C4: the wide-to-long reshape round-trips sums per identifier — for
every identifier `k`, the sum of the normalized `Quantidade` values of all
retained long rows for `k` equals, row-major, the sum of that identifier's
normalized wide-row cells across the year columns whose header parses. -/
theorem c4_roundtrip (t : RawTable) (med : List (Option String)) (k : String)
    (hmed : getCol t "medicamento" = some med)
    (hrect : ∀ p ∈ t.cols, p.2.length = med.length) :
    load_coagulopatias_data t = Except.ok (acqRows med (yearCols t)) ∧
    (((acqRows med (yearCols t)).filter (fun r => r.medicamento == some k)).map
        (fun r => r.quantidade)).sum =
      ∑ i ∈ Finset.range med.length,
        (if med.getD i none = some k then
          (((yearCols t).filter (fun p => (parseNum p.1).isSome)).map
            (fun p => normalizeQuantidade (p.2.getD i none))).sum
        else 0) := by
  constructor
  · unfold load_coagulopatias_data
    rw [hmed]
  · have h1 : List.Perm
        ((acqRows med (yearCols t)).filter (fun r => r.medicamento == some k))
        ((cleanAcq (meltAcq med (yearCols t))).filter (fun r => r.medicamento == some k)) :=
      (List.perm_insertionSort _ _).filter _
    rw [(h1.map (fun r => r.quantidade)).sum_eq,
      c4_key med k (yearCols t) (fun p hp => hrect p (List.mem_of_mem_filter hp))]

/-- The example wide table used by C4's witness. -/
def tEx : RawTable :=
  ⟨[("medicamento", [some "X", some "Y"]), ("2019", [some "3.100", some "5"]),
    ("2020", [some "1.234,56", none]), ("obs", [some "a", some "b"])]⟩

/-- Witness for C4 on the example table, identifier "X". -/
theorem c4_roundtrip_witness :
    load_coagulopatias_data tEx =
      Except.ok (acqRows [some "X", some "Y"] (yearCols tEx)) ∧
    (((acqRows [some "X", some "Y"] (yearCols tEx)).filter
        (fun r => r.medicamento == some "X")).map (fun r => r.quantidade)).sum =
      ∑ i ∈ Finset.range ([some "X", some "Y"] : List (Option String)).length,
        (if ([some "X", some "Y"] : List (Option String)).getD i none = some "X" then
          (((yearCols tEx).filter (fun p => (parseNum p.1).isSome)).map
            (fun p => normalizeQuantidade (p.2.getD i none))).sum
        else 0) :=
  c4_roundtrip tEx [some "X", some "Y"] "X" (by decide) (by decide)

/-- Totality of the code-point order on character lists. -/
theorem charListLe_total (a : List Char) :
    ∀ b, charListLe a b = true ∨ charListLe b a = true := by
  induction a with
  | nil => intro b; left; rfl
  | cons x xs ih =>
      intro b
      cases b with
      | nil => right; rfl
      | cons y ys =>
          by_cases h1 : x < y
          · left; simp [charListLe, h1]
          · by_cases h2 : y < x
            · right; simp [charListLe, h2]
            · rcases ih ys with h | h
              · left; simp [charListLe, h1, h2, h]
              · right; simp [charListLe, h1, h2, h]

/-- Transitivity of the code-point order on character lists. -/
theorem charListLe_trans {a : List Char} :
    ∀ {b c}, charListLe a b = true → charListLe b c = true → charListLe a c = true := by
  induction a with
  | nil => intro b c _ _; rfl
  | cons x xs ih =>
      intro b c hab hbc
      cases b with
      | nil => simp [charListLe] at hab
      | cons y ys =>
          cases c with
          | nil => simp [charListLe] at hbc
          | cons z zs =>
              simp only [charListLe] at hab hbc ⊢
              by_cases hxy : x < y
              · by_cases hyz : y < z
                · simp [lt_trans hxy hyz]
                · by_cases hzy : z < y
                  · simp [hyz, hzy] at hbc
                  · have : y = z := le_antisymm (not_lt.mp hzy) (not_lt.mp hyz)
                    subst this
                    simp [hxy]
              · by_cases hyx : y < x
                · simp [hxy, hyx] at hab
                · have : x = y := le_antisymm (not_lt.mp hyx) (not_lt.mp hxy)
                  subst this
                  simp only [lt_irrefl, if_false] at hab
                  by_cases hxz : x < z
                  · simp [hxz]
                  · by_cases hzx : z < x
                    · simp [hxz, hzx] at hbc
                    · have : x = z := le_antisymm (not_lt.mp hzx) (not_lt.mp hxz)
                      subst this
                      simp only [lt_irrefl, if_false] at hbc ⊢
                      exact ih hab hbc

/-- Antisymmetry of the code-point order on character lists. -/
theorem charListLe_antisymm {a : List Char} :
    ∀ {b}, charListLe a b = true → charListLe b a = true → a = b := by
  induction a with
  | nil =>
      intro b _ hba
      cases b with
      | nil => rfl
      | cons y ys => simp [charListLe] at hba
  | cons x xs ih =>
      intro b hab hba
      cases b with
      | nil => simp [charListLe] at hab
      | cons y ys =>
          simp only [charListLe] at hab hba
          by_cases hxy : x < y
          · simp [hxy, asymm hxy] at hba
          · by_cases hyx : y < x
            · simp [hxy, hyx] at hab
            · have : x = y := le_antisymm (not_lt.mp hyx) (not_lt.mp hxy)
              subst this
              simp only [lt_irrefl, if_false] at hab hba
              rw [ih hab hba]

/-- Totality of the identifier-cell order. -/
theorem optStrLeB_total (a b : Option String) :
    optStrLeB a b = true ∨ optStrLeB b a = true := by
  cases a <;> cases b <;> simp [optStrLeB]
  exact charListLe_total _ _

/-- Transitivity of the identifier-cell order. -/
theorem optStrLeB_trans {a b c : Option String} (hab : optStrLeB a b = true)
    (hbc : optStrLeB b c = true) : optStrLeB a c = true := by
  cases a <;> cases b <;> cases c <;> simp_all [optStrLeB, strLeB]
  exact charListLe_trans hab hbc

/-- Antisymmetry of the identifier-cell order. -/
theorem optStrLeB_antisymm {a b : Option String} (hab : optStrLeB a b = true)
    (hba : optStrLeB b a = true) : a = b := by
  cases a with
  | none =>
      cases b with
      | none => rfl
      | some sb => simp [optStrLeB] at hab
  | some sa =>
      cases b with
      | none => simp [optStrLeB] at hba
      | some sb =>
          simp only [optStrLeB, strLeB] at hab hba
          have h := charListLe_antisymm hab hba
          cases sa with
          | mk la =>
              cases sb with
              | mk lb =>
                  simp only [toList_mk] at h
                  rw [h]

instance : IsTotal LongRow AcqLe :=
  ⟨fun a b => by
    unfold AcqLe
    rcases lt_trichotomy a.ano b.ano with h | h | h
    · exact Or.inl (Or.inl h)
    · rcases optStrLeB_total a.medicamento b.medicamento with h' | h'
      · exact Or.inl (Or.inr ⟨h, h'⟩)
      · exact Or.inr (Or.inr ⟨h.symm, h'⟩)
    · exact Or.inr (Or.inl h)⟩

instance : IsTrans LongRow AcqLe :=
  ⟨fun a b c hab hbc => by
    unfold AcqLe at *
    rcases hab with h1 | ⟨h1, h1'⟩
    · rcases hbc with h2 | ⟨h2, _⟩
      · exact Or.inl (lt_trans h1 h2)
      · exact Or.inl (h2 ▸ h1)
    · rcases hbc with h2 | ⟨h2, h2'⟩
      · exact Or.inl (h1 ▸ h2)
      · exact Or.inr ⟨h1.trans h2, optStrLeB_trans h1' h2'⟩⟩

/-- Mutual `AcqLe` forces equal sort keys. -/
theorem acqLe_key_eq {a b : LongRow} (hab : AcqLe a b) (hba : AcqLe b a) :
    a.ano = b.ano ∧ a.medicamento = b.medicamento := by
  unfold AcqLe at hab hba
  rcases hab with h1 | ⟨h1, h1'⟩
  · rcases hba with h2 | ⟨h2, _⟩
    · exact absurd (lt_trans h1 h2) (lt_irrefl _)
    · exact absurd (h2 ▸ h1) (lt_irrefl _)
  · rcases hba with h2 | ⟨h2, h2'⟩
    · exact absurd (h1 ▸ h2) (lt_irrefl _)
    · exact ⟨h1, optStrLeB_antisymm h1' h2'⟩

/-- Strict version of the row order, breaking ties impossible: used to show
that two sorted tables with pairwise different keys coincide. -/
def AcqLt (a b : LongRow) : Prop :=
  AcqLe a b ∧ ¬(a.ano = b.ano ∧ a.medicamento = b.medicamento)

instance : IsAntisymm LongRow AcqLt :=
  ⟨fun _ _ h1 h2 => absurd (acqLe_key_eq h1.1 h2.1) h1.2⟩

/-- Every sort key of the cleaned table draws its year from a parsed header. -/
theorem key_fst_mem_years (med : List (Option String))
    (vcols : List (String × List (Option String))) (kk : Int × Option String)
    (hkk : kk ∈ (cleanAcq (meltAcq med vcols)).map (fun r => (r.ano, r.medicamento))) :
    kk.1 ∈ vcols.filterMap (fun p => (parseNum p.1).map ratTrunc) := by
  obtain ⟨r, hr, rfl⟩ := List.mem_map.mp hkk
  obtain ⟨a, ha, y, hy, rfl⟩ := mem_cleanAcq.mp hr
  obtain ⟨p, hp, mc, _, rfl⟩ := mem_meltAcq.mp ha
  exact List.mem_filterMap.mpr ⟨p, hp, by rw [show (⟨mc.1, p.1, mc.2⟩ : MeltRow).ano = p.1 from rfl] at hy; rw [hy]; rfl⟩

/-- With distinct identifiers and distinct parsed years, the (year,
identifier) sort keys of the cleaned table are pairwise distinct. -/
theorem nodup_keys (med : List (Option String)) (hmed : med.Nodup) :
    ∀ vcols : List (String × List (Option String)),
      (∀ p ∈ vcols, p.2.length = med.length) →
      (vcols.filterMap (fun p => (parseNum p.1).map ratTrunc)).Nodup →
      ((cleanAcq (meltAcq med vcols)).map (fun r => (r.ano, r.medicamento))).Nodup := by
  intro vcols
  induction vcols with
  | nil =>
      intro _ _
      simp [meltAcq, cleanAcq]
  | cons p ps ih =>
      intro hrect hyrs
      have hrect' : ∀ q ∈ ps, q.2.length = med.length :=
        fun q hq => hrect q (List.mem_cons_of_mem p hq)
      rw [meltAcq_cons, cleanAcq_append, List.map_append]
      rw [List.filterMap_cons] at hyrs
      cases hy : parseNum p.1 with
      | none =>
          rw [hy] at hyrs
          simp only [Option.map_none'] at hyrs
          have hblock : cleanAcq ((med.zip p.2).map (fun mc => ⟨mc.1, p.1, mc.2⟩)) = [] := by
            rw [cleanAcq_map_mk, hy]
          rw [hblock]
          simpa using ih hrect' hyrs
      | some y =>
          rw [hy] at hyrs
          simp only [Option.map_some'] at hyrs
          rw [List.nodup_cons] at hyrs
          obtain ⟨hnotin, hrest⟩ := hyrs
          have hblock : cleanAcq ((med.zip p.2).map (fun mc => ⟨mc.1, p.1, mc.2⟩)) =
              (med.zip p.2).map (fun mc => ⟨mc.1, ratTrunc y, normalizeQuantidade mc.2⟩) := by
            rw [cleanAcq_map_mk, hy]
          rw [hblock, List.map_map]
          apply List.Nodup.append
          · apply List.Nodup.of_map Prod.snd
            rw [List.map_map]
            have : (Prod.snd ∘ ((fun r : LongRow => (r.ano, r.medicamento)) ∘
                (fun mc : Option String × Option String =>
                  (⟨mc.1, ratTrunc y, normalizeQuantidade mc.2⟩ : LongRow)))) =
                (Prod.fst : Option String × Option String → Option String) := rfl
            rw [this, List.map_fst_zip med p.2 (le_of_eq (hrect p (List.mem_cons_self p ps)).symm)]
            exact hmed
          · exact ih hrect' hrest
          · intro kk hk1 hk2
            have h1 : kk.1 = ratTrunc y := by
              obtain ⟨mc, _, rfl⟩ := List.mem_map.mp hk1
              rfl
            exact hnotin (h1 ▸ key_fst_mem_years med ps kk hk2)

/-- Claim C7: a column participates in the final long table exactly when its
header is not (case-insensitively) "medicamento" and parses as a number; and
the result does not depend on source column order — always up to row
permutation, and on the nose when identifiers and parsed years are distinct
(so that the final sort has no key ties). -/
theorem c7_reshape :
    (∀ (t : RawTable) (med : List (Option String)) (r : LongRow),
        r ∈ acqRows med (yearCols t) ↔
          ∃ p ∈ t.cols, strLower p.1 ≠ "medicamento" ∧
            ∃ y, parseNum p.1 = some y ∧
              ∃ mc ∈ med.zip p.2, r = ⟨mc.1, ratTrunc y, normalizeQuantidade mc.2⟩) ∧
    (∀ (t t' : RawTable) (med : List (Option String)), List.Perm t'.cols t.cols →
        List.Perm (acqRows med (yearCols t')) (acqRows med (yearCols t))) ∧
    (∀ (t t' : RawTable) (med : List (Option String)), List.Perm t'.cols t.cols →
        med.Nodup →
        (∀ p ∈ t.cols, p.2.length = med.length) →
        ((yearCols t).filterMap (fun p => (parseNum p.1).map ratTrunc)).Nodup →
        acqRows med (yearCols t') = acqRows med (yearCols t)) := by
  have hmem : ∀ (t : RawTable) (med : List (Option String)) (r : LongRow),
      r ∈ acqRows med (yearCols t) ↔
        ∃ p ∈ t.cols, strLower p.1 ≠ "medicamento" ∧
          ∃ y, parseNum p.1 = some y ∧
            ∃ mc ∈ med.zip p.2, r = ⟨mc.1, ratTrunc y, normalizeQuantidade mc.2⟩ := by
    intro t med r
    rw [acqRows, List.mem_insertionSort, mem_cleanAcq]
    constructor
    · rintro ⟨a, ha, y, hy, rfl⟩
      obtain ⟨p, hp, mc, hmc, rfl⟩ := mem_meltAcq.mp ha
      have hp' := List.mem_filter.mp hp
      refine ⟨p, hp'.1, by simpa using hp'.2, y, hy, mc, hmc, rfl⟩
    · rintro ⟨p, hp, hne, y, hy, mc, hmc, rfl⟩
      refine ⟨⟨mc.1, p.1, mc.2⟩, ?_, y, hy, rfl⟩
      exact mem_meltAcq.mpr ⟨p, List.mem_filter.mpr ⟨hp, by simpa using hne⟩, mc, hmc, rfl⟩
  have hpermAll : ∀ (t t' : RawTable) (med : List (Option String)),
      List.Perm t'.cols t.cols →
      List.Perm (acqRows med (yearCols t')) (acqRows med (yearCols t)) := by
    intro t t' med hperm
    have hyperm : List.Perm (yearCols t') (yearCols t) := hperm.filter _
    have hclean : List.Perm (cleanAcq (meltAcq med (yearCols t')))
        (cleanAcq (meltAcq med (yearCols t))) :=
      (hyperm.flatMap_right _).filterMap _
    exact ((List.perm_insertionSort _ _).trans hclean).trans
      (List.perm_insertionSort _ _).symm
  refine ⟨hmem, hpermAll, ?_⟩
  intro t t' med hperm hmed hrect hyrs
  have hyperm : List.Perm (yearCols t') (yearCols t) := hperm.filter _
  have hrect_y : ∀ p ∈ yearCols t, p.2.length = med.length :=
    fun p hp => hrect p (List.mem_of_mem_filter hp)
  have hrect_y' : ∀ p ∈ yearCols t', p.2.length = med.length :=
    fun p hp => hrect_y p (hyperm.mem_iff.mp hp)
  have hyrs' : ((yearCols t').filterMap (fun p => (parseNum p.1).map ratTrunc)).Nodup :=
    ((hyperm.filterMap _).nodup_iff).mpr hyrs
  have hk := nodup_keys med hmed (yearCols t) hrect_y hyrs
  have hk' := nodup_keys med hmed (yearCols t') hrect_y' hyrs'
  have hsorted : ∀ (vcols : List (String × List (Option String))),
      ((cleanAcq (meltAcq med vcols)).map (fun r => (r.ano, r.medicamento))).Nodup →
      List.Sorted AcqLt (acqRows med vcols) := by
    intro vcols hnd
    have h1 : List.Pairwise AcqLe (acqRows med vcols) := List.sorted_insertionSort _ _
    have hnd2 : ((acqRows med vcols).map (fun r => (r.ano, r.medicamento))).Nodup :=
      (((List.perm_insertionSort AcqLe _).map _).nodup_iff).mpr hnd
    have h2 : List.Pairwise
        (fun a b : LongRow => ¬(a.ano = b.ano ∧ a.medicamento = b.medicamento))
        (acqRows med vcols) := by
      have := (List.pairwise_map.mp hnd2)
      refine this.imp ?_
      intro a b hab ⟨h1', h2'⟩
      exact hab (by rw [h1', h2'])
    exact (h1.and h2).imp (fun h => ⟨h.1, h.2⟩)
  exact List.eq_of_perm_of_sorted (hpermAll t t' med hperm) (hsorted _ hk') (hsorted _ hk)

/-- Example table for C7's witness. -/
def tEx7 : RawTable :=
  ⟨[("medicamento", [some "X", some "Y"]), ("2019", [some "1", some "2"]),
    ("2020", [some "3", some "4"])]⟩

/-- The same table with its columns reordered. -/
def tEx7p : RawTable :=
  ⟨[("2020", [some "3", some "4"]), ("medicamento", [some "X", some "Y"]),
    ("2019", [some "1", some "2"])]⟩

/-- Witness for C7: the reordered table loads to the same result. -/
theorem c7_reshape_witness :
    acqRows [some "X", some "Y"] (yearCols tEx7p) =
      acqRows [some "X", some "Y"] (yearCols tEx7) :=
  c7_reshape.2.2 tEx7 tEx7p [some "X", some "Y"] (by decide) (by decide)
    (by decide) (by decide)

/-- The ASCII digit character with value `a`. -/
def dchar (a : Fin 10) : Char := Char.ofNat (48 + (a : Nat))

theorem dchar_isDigit (a : Fin 10) : (dchar a).isDigit = true := by
  fin_cases a <;> decide

theorem dchar_not_month (a : Fin 10) : isMonthChar (dchar a) = false := by
  fin_cases a <;> decide

theorem dchar_not_ws (a : Fin 10) : (dchar a).isWhitespace = false := by
  fin_cases a <;> decide

theorem dchar_ne_slash (a : Fin 10) : dchar a ≠ '/' := by
  fin_cases a <;> decide

theorem charLower_dchar (a : Fin 10) : charLower (dchar a) = dchar a := by
  fin_cases a <;> decide

theorem digitsVal_dchar (a b : Fin 10) :
    digitsVal [dchar a, dchar b] = 10 * (a : Nat) + (b : Nat) := by
  fin_cases a <;> fin_cases b <;> decide

/-- A month character is not whitespace. -/
theorem isMonthChar_not_ws {c : Char} (h : isMonthChar c = true) :
    c.isWhitespace = false := by
  unfold isMonthChar at h
  rw [Bool.or_eq_true, Bool.and_eq_true] at h
  rcases h with ⟨h1, h2⟩ | h'
  · rw [decide_eq_true_eq] at h1 h2
    cases hw : c.isWhitespace
    · rfl
    · exfalso
      have hw' : ((c = ' ' ∨ c = '\t') ∨ c = '\x0d') ∨ c = '\n' := by
        simpa [Char.isWhitespace] using hw
      rcases hw' with ((rfl | rfl) | rfl) | rfl <;> exact absurd h1 (by decide)
  · rw [decide_eq_true_eq] at h'
    subst h'
    rfl

/-- The lowercasing map fixes month characters. -/
theorem charLower_fix_month {c : Char} (h : isMonthChar c = true) :
    charLower c = c := by
  unfold isMonthChar at h
  unfold charLower
  rw [Bool.or_eq_true, Bool.and_eq_true] at h
  rcases h with ⟨h1, h2⟩ | h'
  · rw [decide_eq_true_eq] at h1 h2
    rw [if_neg, if_neg]
    · intro hC
      subst hC
      exact absurd h2 (by decide)
    · intro hAZ
      rw [Bool.and_eq_true, decide_eq_true_eq, decide_eq_true_eq] at hAZ
      exact absurd (le_trans h1 hAZ.2) (by decide)
  · rw [decide_eq_true_eq] at h'
    subst h'
    rfl

/-- takeWhile runs through a prefix whose characters all satisfy `p`. -/
theorem takeWhile_append_all {p : Char → Bool} :
    ∀ {l₁ : List Char}, (∀ c ∈ l₁, p c = true) → ∀ l₂ : List Char,
      (l₁ ++ l₂).takeWhile p = l₁ ++ l₂.takeWhile p := by
  intro l₁
  induction l₁ with
  | nil => intro _ l₂; rfl
  | cons c cs ih =>
      intro h l₂
      rw [List.cons_append, List.takeWhile_cons, if_pos (h c (List.mem_cons_self c cs)),
        ih (fun d hd => h d (List.mem_cons_of_mem c hd)) l₂, List.cons_append]

/-- dropWhile skips a prefix whose characters all satisfy `p`. -/
theorem dropWhile_append_all {p : Char → Bool} :
    ∀ {l₁ : List Char}, (∀ c ∈ l₁, p c = true) → ∀ l₂ : List Char,
      (l₁ ++ l₂).dropWhile p = l₂.dropWhile p := by
  intro l₁
  induction l₁ with
  | nil => intro _ l₂; rfl
  | cons c cs ih =>
      intro h l₂
      rw [List.cons_append, List.dropWhile_cons, if_pos (h c (List.mem_cons_self c cs)),
        ih (fun d hd => h d (List.mem_cons_of_mem c hd)) l₂]

/-- dropWhile stops at an element that fails `p`. -/
theorem dropWhile_block (p : Char → Bool) :
    ∀ (l : List Char) {d : Char}, p d = false → ∀ r : List Char,
      (l ++ d :: r).dropWhile p = l.dropWhile p ++ d :: r := by
  intro l
  induction l with
  | nil =>
      intro d hd r
      simp [List.dropWhile_cons, hd]
  | cons c cs ih =>
      intro d hd r
      rw [List.cons_append, List.dropWhile_cons, List.dropWhile_cons]
      by_cases hc : p c
      · rw [if_pos hc, if_pos hc, ih hd r]
      · rw [if_neg hc, if_neg hc, List.cons_append]

/-- Right trim does not cross an element that fails `p`. -/
theorem trimRight_block {p : Char → Bool} (B : List Char) {d : Char}
    (hd : p d = false) (l₂ : List Char) :
    ((B ++ d :: l₂).reverse.dropWhile p).reverse =
      B ++ d :: (l₂.reverse.dropWhile p).reverse := by
  rw [List.reverse_append, List.reverse_cons, List.append_assoc, List.singleton_append,
    dropWhile_block p l₂.reverse hd B.reverse, List.reverse_append, List.reverse_cons,
    List.reverse_reverse]
  simp

/-- Characters of a month name are fixed by the lowercasing map. -/
theorem map_charLower_fix : ∀ l : List Char, (∀ c ∈ l, isMonthChar c = true) →
    l.map charLower = l := by
  intro l h
  induction l with
  | nil => rfl
  | cons x xs ih =>
      rw [List.map_cons, charLower_fix_month (h x (List.mem_cons_self x xs)),
        ih (fun d hd => h d (List.mem_cons_of_mem x hd))]

/-- Normalization (str, strip, lower) of a month/period label: the month
letters, optional slash and the two digits survive unchanged; only the tail
is right-trimmed and lowercased. -/
theorem periodoPre_shape (nm : List Char) (hne : nm ≠ [])
    (hmc : ∀ c ∈ nm, isMonthChar c = true)
    (sep : List Char) (hsep : sep = ['/'] ∨ sep = [])
    (a b : Fin 10) (rest : List Char) :
    periodoPre (some (String.mk (nm ++ (sep ++ (dchar a :: dchar b :: rest))))) =
      nm ++ (sep ++ (dchar a :: dchar b ::
        ((rest.reverse.dropWhile Char.isWhitespace).reverse.map charLower))) := by
  unfold periodoPre
  simp only [Option.getD_some, toList_mk]
  obtain ⟨c₀, nm', rfl⟩ : ∃ c₀ nm', nm = c₀ :: nm' := by
    cases nm with
    | nil => exact absurd rfl hne
    | cons x xs => exact ⟨x, xs, rfl⟩
  rw [List.cons_append, List.dropWhile_cons,
    if_neg (by simp [isMonthChar_not_ws (hmc c₀ (List.mem_cons_self c₀ nm'))])]
  have hre : c₀ :: (nm' ++ (sep ++ (dchar a :: dchar b :: rest))) =
      ((c₀ :: nm') ++ sep ++ [dchar a]) ++ dchar b :: rest := by simp
  rw [hre, trimRight_block _ (dchar_not_ws b) rest]
  have h1 := map_charLower_fix (c₀ :: nm') hmc
  rcases hsep with rfl | rfl <;>
    simp [List.map_append, h1, charLower_dchar, List.append_assoc,
      show charLower '/' = '/' from by decide] <;>
    exact ⟨charLower_fix_month (hmc c₀ (List.mem_cons_self c₀ nm')),
      map_charLower_fix nm' (fun d hd => hmc d (List.mem_cons_of_mem c₀ hd))⟩

/-- The optional slash skip leaves a non-slash head alone. -/
theorem skipSlash_cons_ne {c : Char} {t : List Char} (h : c ≠ '/') :
    skipSlash (c :: t) = c :: t := by
  unfold skipSlash
  split
  · next heq =>
      injection heq with h1 _
      exact absurd h1 h
  · rfl

/-- The regex match on a normalized month/period label. -/
theorem regexPeriodo_shape (nm : List Char) (hne : nm ≠ [])
    (hmc : ∀ c ∈ nm, isMonthChar c = true)
    (sep : List Char) (hsep : sep = ['/'] ∨ sep = [])
    (a b : Fin 10) (rest : List Char) :
    regexPeriodo (nm ++ (sep ++ (dchar a :: dchar b :: rest))) =
      some (nm, [dchar a, dchar b]) := by
  unfold regexPeriodo
  have htake : (nm ++ (sep ++ (dchar a :: dchar b :: rest))).takeWhile isMonthChar = nm := by
    rw [takeWhile_append_all hmc]
    rcases hsep with rfl | rfl
    · simp [List.takeWhile_cons, show isMonthChar '/' = false from by decide]
    · simp [List.takeWhile_cons, dchar_not_month]
  have hdrop : (nm ++ (sep ++ (dchar a :: dchar b :: rest))).dropWhile isMonthChar =
      sep ++ (dchar a :: dchar b :: rest) := by
    rw [dropWhile_append_all hmc]
    rcases hsep with rfl | rfl
    · simp [List.dropWhile_cons, show isMonthChar '/' = false from by decide]
    · simp [List.dropWhile_cons, dchar_not_month]
  rw [htake, hdrop, if_neg (by simpa using hne)]
  have hskip : skipSlash (sep ++ (dchar a :: dchar b :: rest)) =
      dchar a :: dchar b :: rest := by
    rcases hsep with rfl | rfl
    · rfl
    · exact skipSlash_cons_ne (dchar_ne_slash a)
  rw [hskip]
  have h2 : twoDigits (dchar a :: dchar b :: rest) = some [dchar a, dchar b] := by
    simp [twoDigits, dchar_isDigit]
  unfold yearGroup
  rw [h2]
  rfl

/-- Full evaluation of `parse_periodo` on a recognized month name followed by
an optional slash and two digits: the year is windowed to 2000 + digits and
everything after the two digits is ignored. -/
theorem parse_periodo_shape (nm : List Char) (hne : nm ≠ [])
    (hmc : ∀ c ∈ nm, isMonthChar c = true) (m : Nat)
    (hm : mesesGet (cedillaToC nm) = some m)
    (sep : List Char) (hsep : sep = ['/'] ∨ sep = [])
    (a b : Fin 10) (rest : List Char) :
    parse_periodo (some (String.mk (nm ++ (sep ++ (dchar a :: dchar b :: rest))))) =
      some ⟨2000 + ((10 * (a : Nat) + (b : Nat) : Nat) : Int), m, 1⟩ := by
  unfold parse_periodo
  rw [periodoPre_shape nm hne hmc sep hsep a b rest,
    regexPeriodo_shape nm hne hmc sep hsep a b _]
  simp only [digitsVal_dchar]
  rw [hm]
  have hval : ((10 * (a : Nat) + (b : Nat) : Nat) : Int) < 100 := by
    have ha := a.isLt
    have hb := b.isLt
    omega
  rw [if_pos hval]

/-- The `\d{4}` alternative can fire only when `\d{2}` already fires, so the
alternation collapses to its first alternative. -/
theorem yearGroup_eq_twoDigits (r : List Char) : yearGroup r = twoDigits r := by
  unfold yearGroup
  cases h2 : twoDigits r with
  | some v => rfl
  | none =>
      show fourDigits r = none
      rcases r with _ | ⟨x, _ | ⟨y, t⟩⟩
      · rfl
      · rfl
      · have hd : (x.isDigit && y.isDigit) = false := by
          by_cases hxy : (x.isDigit && y.isDigit) = true
          · simp [twoDigits, hxy] at h2
          · exact Bool.eq_false_iff.mpr hxy
        rcases t with _ | ⟨z, _ | ⟨w, t'⟩⟩
        · rfl
        · rfl
        · cases hx : x.isDigit
          · simp [fourDigits, hx]
          · have hy : y.isDigit = false := by
              cases hy' : y.isDigit
              · rfl
              · rw [hx, hy'] at hd
                exact absurd hd (by simp)
            simp [fourDigits, hx, hy]

/-- The two parsers agree on every input: the four-digit branch is dead. -/
theorem parse_periodo_two_only (c : Option String) :
    parse_periodo c = parse_periodoTwoOnly c := by
  simp only [parse_periodo, parse_periodoTwoOnly, regexPeriodo, yearGroup_eq_twoDigits]

/-- Month-plus-digits parses, with or without the slash, for any recognized
month name (packaged over the name as a string). -/
theorem parse_periodo_name (name : String) (m : Nat)
    (hne : name.toList ≠ []) (hmc : ∀ c ∈ name.toList, isMonthChar c = true)
    (hm : mesesGet (cedillaToC name.toList) = some m) (a b : Fin 10) (rest : String) :
    parse_periodo (some (name ++ "/" ++ String.mk [dchar a, dchar b] ++ rest)) =
      some ⟨2000 + ((10 * (a : Nat) + (b : Nat) : Nat) : Int), m, 1⟩ ∧
    parse_periodo (some (name ++ String.mk [dchar a, dchar b] ++ rest)) =
      some ⟨2000 + ((10 * (a : Nat) + (b : Nat) : Nat) : Int), m, 1⟩ := by
  constructor
  · have h := parse_periodo_shape name.toList hne hmc m hm ['/'] (Or.inl rfl) a b rest.toList
    have hs : name ++ "/" ++ String.mk [dchar a, dchar b] ++ rest =
        String.mk (name.toList ++ (['/'] ++ (dchar a :: dchar b :: rest.toList))) := by
      apply String.ext
      simp [String.data_append, String.toList]
    rw [hs]
    exact h
  · have h := parse_periodo_shape name.toList hne hmc m hm [] (Or.inr rfl) a b rest.toList
    have hs : name ++ String.mk [dchar a, dchar b] ++ rest =
        String.mk (name.toList ++ ([] ++ (dchar a :: dchar b :: rest.toList))) := by
      apply String.ext
      simp [String.data_append, String.toList]
    rw [hs]
    exact h

/-- Claim C8: `parse_periodo` matches by prefix — every recognized month name
followed, with or without a '/', by two digits parses, trailing characters
after the two digits are ignored, the year always comes from exactly the
first two digits (windowed to 2000 + value), the `\d{4}` alternative is
unreachable (the parser equals its two-digit-only variant on every input),
"janeiro19" parses, and "dezembro/2023" is read as year 20 and windowed
to 2020. -/
theorem c8_parse_behavior :
    (∀ p ∈ meses, ∀ (a b : Fin 10) (rest : String),
        parse_periodo (some (p.1 ++ "/" ++ String.mk [dchar a, dchar b] ++ rest)) =
          some ⟨2000 + ((10 * (a : Nat) + (b : Nat) : Nat) : Int), p.2, 1⟩ ∧
        parse_periodo (some (p.1 ++ String.mk [dchar a, dchar b] ++ rest)) =
          some ⟨2000 + ((10 * (a : Nat) + (b : Nat) : Nat) : Int), p.2, 1⟩) ∧
    (∀ c : Option String, parse_periodo c = parse_periodoTwoOnly c) ∧
    parse_periodo (some "janeiro19") = some ⟨2019, 1, 1⟩ ∧
    parse_periodo (some "dezembro/2023") = some ⟨2020, 12, 1⟩ ∧
    parse_periodo (some "julho/19xyz") = some ⟨2019, 7, 1⟩ := by
  refine ⟨?_, parse_periodo_two_only, by decide, by decide, by decide⟩
  intro p hp a b rest
  fin_cases hp <;>
    exact parse_periodo_name _ _ (by decide) (by decide) (by decide) a b rest

/-- Witness for C8 at the month "janeiro", digits 1 and 9, empty tail. -/
theorem c8_parse_behavior_witness :
    parse_periodo (some ("janeiro" ++ "/" ++ String.mk [dchar 1, dchar 9] ++ "")) =
      some ⟨2000 + ((10 * ((1 : Fin 10) : Nat) + ((9 : Fin 10) : Nat) : Nat) : Int), 1, 1⟩ :=
  (c8_parse_behavior.1 ("janeiro", 1) (by decide) 1 9 "").1
